import Mathlib

/-!
Shallow embedding of the VFPU register-addressing, transfer and arithmetic
core of `Core/MIPS/MIPSVFPUUtils.cpp`, together with proofs of the claims
about it.

Modelling conventions:
* A 32-bit float is represented by its IEEE-754 bit pattern as a `Nat`
  (the source itself manipulates patterns through the `float2int` union).
* The register file is the physical 128-entry array `currentMIPS->v`,
  modelled as a total function `Nat → Nat` (physical index to stored bits).
  The macro `V(i) = currentMIPS->v[voffset[i]]` addresses it through the
  fixed permutation `voffset`; the layout of `voffset` is pinned down by the
  comment in `ReadMatrix`/`WriteMatrix` ("The voffset ordering is now
  integrated in these formulas"): bank `mtx`, row `r`, column `c` of the
  logical lane `mtx*4 + c + 32*r` lives at physical index `mtx*16 + 4*c + r`.
* The external write mask is a `Nat`; bit `i` is `(mask >>> i) &&& 1`.
* `vfpu_sin`/`vfpu_cos` call the platform `sin`/`cos` on one branch; that
  call is abstracted as an explicit oracle parameter `lib : Nat → Nat`
  (bits-to-bits), so every theorem below is quantified over all platform
  implementations.
-/

namespace VFPU

/-- The `voffset` permutation: logical lane index (bits: column 0-1,
bank 2-4, row 5-6) to physical index in `currentMIPS->v`
(`mtx*16 + column*4 + row`), as integrated into the matrix formulas of
`ReadMatrix`/`WriteMatrix`. -/
def voffset (i : Nat) : Nat :=
  ((i &&& 0x1F) <<< 2) ||| ((i >>> 5) &&& 3)

/-- Sequential scatter of (physical index, value) pairs into the register
file; the loop combinator shared by the transfer functions. Later writes
win, matching the loops' left-to-right order. -/
def writePairs (ps : List (Nat × Nat)) (rf : Nat → Nat) : Nat → Nat :=
  ps.foldl (fun f pv => fun q => if q = pv.1 then pv.2 else f q) rf

/-- `VectorSize` (`V_Single`..`V_Quad`); invalid sizes are fatal assertions
in the source and are not represented. -/
inductive VectorSize
  | Single
  | Pair
  | Triple
  | Quad
deriving DecidableEq, Fintype, Repr

/-- `MatrixSize` (`M_1x1`..`M_4x4`); invalid sizes are fatal assertions in
the source and are not represented. -/
inductive MatrixSize
  | M_1x1
  | M_2x2
  | M_3x3
  | M_4x4
deriving DecidableEq, Fintype, Repr

/-- `GetNumVectorElements`. -/
def GetNumVectorElements (sz : VectorSize) : Nat :=
  match sz with
  | .Single => 1
  | .Pair => 2
  | .Triple => 3
  | .Quad => 4

/-- `GetMatrixSide`. -/
def GetMatrixSide (sz : MatrixSize) : Nat :=
  match sz with
  | .M_1x1 => 1
  | .M_2x2 => 2
  | .M_3x3 => 3
  | .M_4x4 => 4

/-- The size-dependent row field of a vector register code, from the
`switch (N)` of `GetVectorRegs` (shared verbatim by `ReadVector` and
`WriteVector`). -/
def vrow (sz : VectorSize) (reg : Nat) : Nat :=
  match sz with
  | .Single => (reg >>> 5) &&& 3
  | .Pair => (reg >>> 5) &&& 2
  | .Triple => (reg >>> 6) &&& 1
  | .Quad => (reg >>> 5) &&& 2

/-- The transpose bit of a vector register code; `V_Single` forces it to 0
(`switch (N)` of `GetVectorRegs`). -/
def vtransp (sz : VectorSize) (reg : Nat) : Nat :=
  match sz with
  | .Single => 0
  | _ => (reg >>> 5) &&& 1

/-- Logical lane index of element `i` of a decoded vector: the loop body of
`GetVectorRegs` (`mtx*4` plus the transposed or untransposed offset), also
computed—base plus offset—by `ReadVector` and `WriteVector`. -/
def vecIdx (sz : VectorSize) (reg i : Nat) : Nat :=
  let mtx := (reg >>> 2) &&& 7
  let col := reg &&& 3
  let row := vrow sz reg
  if vtransp sz reg ≠ 0 then
    (mtx * 4) + (((row + i) &&& 3) + (col * 32))
  else
    (mtx * 4) + (col + (((row + i) &&& 3) * 32))

/-- `GetVectorRegs`: the list of decoded logical lane indices
`regs[0..length)`. -/
def GetVectorRegs (sz : VectorSize) (reg : Nat) : List Nat :=
  (List.range (GetNumVectorElements sz)).map (fun i => vecIdx sz reg i)

/-- The row field of a matrix register code, from the `switch (N)` of
`GetMatrixRegs` (shared verbatim by `WriteMatrix`). -/
def mrow (sz : MatrixSize) (reg : Nat) : Nat :=
  match sz with
  | .M_1x1 => (reg >>> 5) &&& 3
  | .M_2x2 => (reg >>> 5) &&& 2
  | .M_3x3 => (reg >>> 6) &&& 1
  | .M_4x4 => (reg >>> 5) &&& 2

/-- The transpose bit of a matrix register code; `M_1x1` forces it to 0. -/
def mtransp (sz : MatrixSize) (reg : Nat) : Nat :=
  match sz with
  | .M_1x1 => 0
  | _ => (reg >>> 5) &&& 1

/-- Logical lane index of matrix cell (row `i`, col `j`), stored at
`regs[j*4 + i]`: the loop body of `GetMatrixRegs`. -/
def mCellIdx (sz : MatrixSize) (reg i j : Nat) : Nat :=
  let mtx := (reg >>> 2) &&& 7
  let col := reg &&& 3
  let row := mrow sz reg
  if mtransp sz reg ≠ 0 then
    (mtx * 4) + (((row + i) &&& 3) + (((col + j) &&& 3) * 32))
  else
    (mtx * 4) + (((col + j) &&& 3) + (((row + i) &&& 3) * 32))

/-- `GetMatrixRegs`: the collection of the `side*side` decoded lane
indices, in the source's loop order (`i` outer, `j` inner). -/
def GetMatrixRegs (sz : MatrixSize) (reg : Nat) : List Nat :=
  (List.range (GetMatrixSide sz)).flatMap
    (fun i => (List.range (GetMatrixSide sz)).map (fun j => mCellIdx sz reg i j))

/-- Transposition of a lane position inside its bank tile:
`mtx*4 + c + 32*r ↦ mtx*4 + r + 32*c` (swaps the row stride 32 and the
column stride 1 of the addressing model). -/
def laneTranspose (n : Nat) : Nat :=
  (n &&& 0x1C) ||| ((n >>> 5) &&& 3) ||| ((n &&& 3) <<< 5)

/-- Element formula of claim C1, written from the specification's words:
`bank*4 + (transpose ? ((row+i)&3)+col*32 : col+((row+i)&3)*32)` with
`bank=(code>>2)&7`, `col=code&3`, `transpose=(code>>5)&1` (0 for Single)
and the size-dependent row field. To be compared with `GetVectorRegs`. -/
def specVectorIndex (sz : VectorSize) (code i : Nat) : Nat :=
  let bank := (code >>> 2) &&& 7
  let col := code &&& 3
  let transpose :=
    match sz with
    | .Single => 0
    | _ => (code >>> 5) &&& 1
  let row :=
    match sz with
    | .Single => (code >>> 5) &&& 3
    | .Pair => (code >>> 5) &&& 2
    | .Triple => (code >>> 6) &&& 1
    | .Quad => (code >>> 5) &&& 2
  if transpose ≠ 0 then
    (bank * 4) + (((row + i) &&& 3) + (col * 32))
  else
    (bank * 4) + (col + (((row + i) &&& 3) * 32))

/-- `ReadVector`: gathers the addressed lanes via `V(...)`, i.e. through
`voffset`, in logical order. `V_Single` short-circuits to `V(reg)`. -/
def ReadVector (rf : Nat → Nat) (sz : VectorSize) (reg : Nat) : List Nat :=
  match sz with
  | .Single => [rf (voffset reg)]
  | _ =>
    (List.range (GetNumVectorElements sz)).map
      (fun i => rf (voffset (vecIdx sz reg i)))

/-- `WriteVector`: scatters `rd` into the addressed lanes. `V_Single` is the
fast path (writes `V(reg)` unless mask bit 0 is set); otherwise an unmasked
bulk loop when the whole mask is 0, and a per-lane masked loop otherwise. -/
def WriteVector (rd : Nat → Nat) (sz : VectorSize) (reg : Nat) (mask : Nat)
    (rf : Nat → Nat) : Nat → Nat :=
  match sz with
  | .Single =>
    if (mask >>> 0) &&& 1 = 0 then writePairs [(voffset reg, rd 0)] rf else rf
  | _ =>
    if mask = 0 then
      writePairs
        ((List.range (GetNumVectorElements sz)).map
          (fun i => (voffset (vecIdx sz reg i), rd i))) rf
    else
      writePairs
        (((List.range (GetNumVectorElements sz)).filter
            (fun i => (mask >>> i) &&& 1 == 0)).map
          (fun i => (voffset (vecIdx sz reg i), rd i))) rf

/-- The cells `(j, i)` of a `side × side` matrix in the loop order of
`WriteMatrix` (`j` outer, `i` inner). -/
def mCells (side : Nat) : List (Nat × Nat) :=
  (List.range side).flatMap (fun j => (List.range side).map (fun i => (j, i)))

/-- Physical index written by `WriteMatrix` for cell (row `i`, col `j`):
`mtx*16` plus `((row+i)&3)*4 + ((col+j)&3)` when transposed, else
`((col+j)&3)*4 + ((row+i)&3)` (the `voffset` ordering is integrated in the
formulas, as the source comments note). -/
def mCellPhys (sz : MatrixSize) (reg i j : Nat) : Nat :=
  let mtx := (reg >>> 2) &&& 7
  let col := reg &&& 3
  let row := mrow sz reg
  if mtransp sz reg ≠ 0 then
    (mtx * 16) + ((((row + i) &&& 3) * 4) + ((col + j) &&& 3))
  else
    (mtx * 16) + ((((col + j) &&& 3) * 4) + ((row + i) &&& 3))

/-- `WriteMatrix`: two bulk fast paths for the full untransposed/transposed
4×4 tile at row 0, col 0 with a clear mask, else the general per-cell loop
in which cell (row `i`, col `j`) is skipped exactly when `j == side-1` and
mask bit `i` is set. (The mask-nonzero `ERROR_LOG_REPORT` is a pure
diagnostic side effect and is not modelled.) -/
def WriteMatrix (rd : Nat → Nat) (sz : MatrixSize) (reg : Nat) (mask : Nat)
    (rf : Nat → Nat) : Nat → Nat :=
  let side := GetMatrixSide sz
  let mtx := (reg >>> 2) &&& 7
  if mtransp sz reg ≠ 0 then
    if side = 4 ∧ mrow sz reg = 0 ∧ reg &&& 3 = 0 ∧ mask = 0 then
      writePairs
        ((mCells 4).map
          (fun c => ((mtx * 16) + ((c.2 * 4) + c.1), rd ((c.1 * 4) + c.2)))) rf
    else
      writePairs
        (((mCells side).filter
            (fun c => decide (c.1 ≠ side - 1) || ((mask >>> c.2) &&& 1 == 0))).map
          (fun c => (mCellPhys sz reg c.2 c.1, rd ((c.1 * 4) + c.2)))) rf
  else
    if side = 4 ∧ mrow sz reg = 0 ∧ reg &&& 3 = 0 ∧ mask = 0 then
      writePairs ((List.range 16).map (fun k => ((mtx * 16) + k, rd k))) rf
    else
      writePairs
        (((mCells side).filter
            (fun c => decide (c.1 ≠ side - 1) || ((mask >>> c.2) &&& 1 == 0))).map
          (fun c => (mCellPhys sz reg c.2 c.1, rd ((c.1 * 4) + c.2)))) rf

/-- `GetVectorOverlap`: 0 immediately when the bank fields differ, else
count coincident lane indices, decoding both operands with `size1` (the
literal contract of the source). Elements of the second decode beyond what
`GetVectorRegs(size1, ·)` produced are uninitialized stack in the source;
they are modelled as the distinct junk defaults 0xAA/0xBB. -/
def GetVectorOverlap (vec1 : Nat) (size1 : VectorSize) (vec2 : Nat)
    (size2 : VectorSize) : Nat :=
  if ((vec1 >>> 2) &&& 7) ≠ ((vec2 >>> 2) &&& 7) then 0
  else
    let n1 := GetNumVectorElements size1
    let n2 := GetNumVectorElements size2
    let regs1 := GetVectorRegs size1 vec1
    let regs2 := GetVectorRegs size1 vec2
    (List.range n1).foldl
      (fun acc i =>
        (List.range n2).foldl
          (fun acc2 j =>
            if regs1.getD i 0xAA = regs2.getD j 0xBB then acc2 + 1 else acc2)
          acc)
      0

/-- `get_uexp`: biased exponent field. -/
def get_uexp (x : Nat) : Nat := (x >>> 23) &&& 0xFF

/-- `get_mant`: mantissa with the hidden 1. -/
def get_mant (x : Nat) : Nat := (x &&& 0x7FFFFF) ||| 0x800000

/-- `get_sign`: the sign bit. -/
def get_sign (x : Nat) : Nat := x &&& 0x80000000

/-- Number of binary digits of `n` (0 for 0), with explicit fuel so that it
reduces structurally. -/
def nbits : Nat → Nat → Nat
  | 0, _ => 0
  | fuel + 1, n => if n = 0 then 0 else nbits fuel (n >>> 1) + 1

/-- `clz32_nonzero`: count of leading zeros of a nonzero 32-bit value. -/
def clz32_nonzero (x : Nat) : Nat := 32 - nbits 32 x

/-- Per-lane data produced by the first loop of `vfpu_dot`:
`exps[i]`, `mants[i]`, `signs[i]`. -/
structure DotLane where
  e : Int
  m : Nat
  s : Nat
deriving Repr

/-- One iteration of the first loop of `vfpu_dot` for operands `a, b`:
`none` models the early `return` of the canonical NaN (inf×0, inf×denormal,
or NaN operand). `EXTRA_BITS = 2`. -/
def dotLaneStep (a b : Nat) : Option DotLane :=
  let aexp := get_uexp a
  let bexp := get_uexp b
  let amant := get_mant a <<< 2
  let bmant := get_mant b <<< 2
  if aexp = 255 then
    if (a &&& 0x7FFFFF) ≠ 0 ∨ bexp = 0 then none
    else some ⟨255, get_mant 0 <<< 2, get_sign a ^^^ get_sign b⟩
  else if bexp = 255 then
    if (b &&& 0x7FFFFF) ≠ 0 ∨ aexp = 0 then none
    else some ⟨255, get_mant 0 <<< 2, get_sign a ^^^ get_sign b⟩
  else
    some ⟨(aexp : Int) + (bexp : Int) - 127,
      ((amant * bmant) >>> 25) &&& 0x7FFFFFFF,
      get_sign a ^^^ get_sign b⟩

/-- The first loop of `vfpu_dot` over the remaining lane pairs, carrying
`max_exp`, `last_inf` (`none` models the initial −1) and the accumulated
lanes; `none` models an early NaN return (from a lane or from the
opposite-signed-infinities check `signs[i] != last_inf`). -/
def dotScan : List (Nat × Nat) → Int → Option Nat → List DotLane →
    Option (Int × List DotLane)
  | [], maxExp, _, acc => some (maxExp, acc.reverse)
  | (a, b) :: rest, maxExp, lastInf, acc =>
    match dotLaneStep a b with
    | none => none
    | some L =>
      let maxExp' := if L.e > maxExp then L.e else maxExp
      if L.e ≥ 255 then
        match lastInf with
        | some s =>
          if L.s ≠ s then none else dotScan rest maxExp' (some L.s) (L :: acc)
        | none => dotScan rest maxExp' (some L.s) (L :: acc)
      else dotScan rest maxExp' lastInf (L :: acc)

/-- Final assembly `sign | exponent | mantissa` of `vfpu_dot`, with the
saturation `max_exp >= 255 → inf` and the flush `max_exp <= 0 → +0`. -/
def dotAssemble (sign : Nat) (e : Int) (m : Nat) : Nat :=
  if e ≥ 255 then sign ||| (255 <<< 23)
  else if e ≤ 0 then 0
  else sign ||| (e.toNat <<< 23) ||| (m &&& 0x7FFFFF)

/-- Second phase of `vfpu_dot`: align the signed mantissas to `max_exp`
(a shift of 32 or more flushes to zero), sum them, recover the sign, drop
the guard bits, renormalize by leading-zero count with the source's
round-to-even adjustment, and assemble. -/
def dotFinish (maxExp : Int) (lanes : List DotLane) : Nat :=
  let mantSum : Int :=
    lanes.foldl
      (fun acc L =>
        let d := maxExp - L.e
        let m : Nat := if d ≥ 32 then 0 else L.m >>> d.toNat
        if L.s ≠ 0 then acc - (m : Int) else acc + (m : Int))
      0
  let signSum : Nat := if mantSum < 0 then 0x80000000 else 0
  let msum : Nat := mantSum.natAbs >>> 2
  if msum = 0 ∨ maxExp ≤ 0 then 0
  else
    let shift : Int := (clz32_nonzero msum : Int) - 8
    if shift < 0 then
      let roundBit : Nat := 1 <<< (-shift - 1).toNat
      if (msum &&& roundBit ≠ 0 ∧ msum &&& (roundBit <<< 1) ≠ 0) ∨
          (msum &&& roundBit ≠ 0 ∧ msum &&& (roundBit - 1) ≠ 0) then
        let msum' := msum + roundBit
        let shift' : Int := (clz32_nonzero msum' : Int) - 8
        dotAssemble signSum (maxExp + -shift') (msum' >>> (-shift').toNat)
      else
        dotAssemble signSum (maxExp + -shift) (msum >>> (-shift).toNat)
    else
      dotAssemble signSum (maxExp - shift) (msum <<< shift.toNat)

/-- `vfpu_dot` on the four lane pairs, as IEEE-754 bit patterns. -/
def vfpu_dot (a b : Fin 4 → Nat) : Nat :=
  match dotScan [(a 0, b 0), (a 1, b 1), (a 2, b 2), (a 3, b 3)] 0 none [] with
  | none => 0x7F800001
  | some (maxExp, lanes) => dotFinish maxExp lanes

/-- A bit pattern is an infinity: exponent field 255, zero fraction
(either sign). -/
def isInfF (p : Nat) : Prop := get_uexp p = 255 ∧ p &&& 0x7FFFFF = 0

/-- A bit pattern is a zero: exponent field 0, zero fraction (either
sign). -/
def isZeroF (p : Nat) : Prop := get_uexp p = 0 ∧ p &&& 0x7FFFFF = 0

/-- A lane pairs an infinity with a zero, in either operand order. -/
def infZeroPair (a b : Nat) : Prop :=
  (isInfF a ∧ isZeroF b) ∨ (isZeroF a ∧ isInfF b)

instance (p : Nat) : Decidable (isInfF p) := by unfold isInfF; infer_instance

instance (p : Nat) : Decidable (isZeroF p) := by unfold isZeroF; infer_instance

instance (a b : Nat) : Decidable (infZeroPair a b) := by
  unfold infZeroPair; infer_instance

/-- The operand vector `{1, 0, 0, 0}` as bit patterns. -/
def dotE0 : Fin 4 → Nat := fun i => if i.val = 0 then 0x3F800000 else 0

/-- Witness operand: all lanes `+inf`. -/
def dotAllInf : Fin 4 → Nat := fun _ => 0x7F800000

/-- Witness operand: all lanes `+0`. -/
def dotAllZero : Fin 4 → Nat := fun _ => 0

/-- The 6 Newton-style mantissa refinement iterations of `vfpu_sqrt`:
`z = (z >> 1) + halfsp / z`. -/
def sqrtNewton (halfsp : Nat) : Nat → Nat → Nat
  | 0, z => z
  | n + 1, z => sqrtNewton halfsp n ((z >>> 1) + halfsp / z)

/-- `vfpu_sqrt` on bit patterns: positive inf/NaN handling, flush of the
zero-exponent class to +0, canonical NaN for remaining negatives, then the
fixed-point Newton refinement with the final clearing of the low 2 mantissa
bits. -/
def vfpu_sqrt (p : Nat) : Nat :=
  if p &&& 0xFF800000 = 0x7F800000 then
    if p &&& 0x7FFFFF ≠ 0 then 0x7F800001 else p
  else if p &&& 0x7F800000 = 0 then 0
  else if p &&& 0x80000000 ≠ 0 then 0x7F800001
  else
    let k : Int := (get_uexp p : Int) - 127
    let sp := get_mant p
    let lessBits : Nat := (k.emod 2).toNat
    let k' : Int := k.fdiv 2
    let z0 : Nat := 0xC00000 >>> lessBits
    let halfsp : Nat := (sp >>> 1) <<< (23 - lessBits)
    let z := sqrtNewton halfsp 6 z0
    ((((k' + 127).toNat <<< 23) ||| ((z <<< lessBits) &&& 0x7FFFFF))) &&& 0xFFFFFFFC

/-- `mant_mul`: rounding fixed-point multiply (64-bit product, a fixed bias
added when the truncated bits are nonzero, shift right 23, truncate to
32 bits). -/
def mant_mul (a b : Nat) : Nat :=
  let m := a * b
  let m' := if m &&& 0x7FFFFF ≠ 0 then m + 0x01437000 else m
  (m' >>> 23) &&& 0xFFFFFFFF

/-- The 6 Newton-Raphson iterations of `vfpu_rsqrt`:
`z *= 1.5 - halfsp*z*z` in rounding fixed point, with the `uint32`
wraparound of the subtraction made explicit. -/
def rsqrtNewton (halfsp : Nat) : Nat → Nat → Nat
  | 0, z => z
  | n + 1, z =>
    rsqrtNewton halfsp n
      (mant_mul z (((0xC00000 + 0x100000000) - mant_mul halfsp (mant_mul z z)) &&& 0xFFFFFFFF))

/-- `vfpu_rsqrt` on bit patterns: `+inf → 0`, NaN/out-of-range → signed
canonical NaN, zero-exponent class → signed infinity, negative → negative
canonical NaN, else the fixed-point Newton-Raphson refinement, the
renormalization by leading-zero count, and the clearing of the low 2
mantissa bits. -/
def vfpu_rsqrt (p : Nat) : Nat :=
  if p = 0x7F800000 then 0
  else if (p &&& 0x7FFFFFFF) > 0x7F800000 then (p &&& 0x80000000) ||| 0x7F800001
  else if p &&& 0x7F800000 = 0 then (p &&& 0x80000000) ||| 0x7F800000
  else if p &&& 0x80000000 ≠ 0 then 0xFF800001
  else
    let k0 : Int := (get_uexp p : Int) - 127
    let sp := get_mant p
    let lessBits : Nat := (k0.emod 2).toNat
    let k : Int := -(k0.fdiv 2)
    let z0 : Nat := 0x800000 >>> lessBits
    let halfsp : Nat := sp >>> (1 + lessBits)
    let z := rsqrtNewton halfsp 6 z0
    let shift : Int := ((clz32_nonzero z : Int) - 8) + lessBits
    let zk : Nat × Int :=
      if shift < 1 then (z >>> (-shift).toNat, k + -shift)
      else (z <<< shift.toNat, k - shift)
    let z' := zk.1 >>> lessBits
    (((zk.2 + 127).toNat <<< 23) ||| (z' &&& 0x7FFFFF)) &&& 0xFFFFFFFC

/-- `vfpu_sin` on bit patterns. `lib` abstracts the platform computation
`(float)sin((double)x * M_PI_2)` as a bits-to-bits oracle; every branch
before the oracle call is the source's explicit bit manipulation:
NaN/inf → payload NaN, small exponents flush to `±0`, reduction modulo
4 turns by mantissa shifting, subtraction of 2 turns with a sign flip,
renormalization, and the final clearing of the low 2 result bits. -/
def vfpu_sin (lib : Nat → Nat) (p : Nat) : Nat :=
  let k := get_uexp p
  if k = 255 then (p &&& 0xFF800001) ||| 1
  else if k < 0x65 then p &&& 0x80000000
  else
    let mant0 := get_mant p
    let km : Nat × Nat :=
      if k > 0x80 then (0x80, (mant0 <<< (k &&& 0x1F)) &&& 0xFFFFFF)
      else (k, mant0)
    let pm : Nat × Nat :=
      if km.1 = 0x80 ∧ km.2 ≥ 0x800000 then (p ^^^ 0x80000000, km.2 - 0x800000)
      else (p, km.2)
    let normShift : Nat :=
      if pm.2 = 0 then 32 else clz32_nonzero pm.2 - 8
    let mant' := pm.2 <<< normShift
    let k' : Int := (km.1 : Int) - normShift
    if k' ≤ 0 ∨ mant' = 0 then pm.1 &&& 0x80000000
    else
      let q := (pm.1 &&& 0x80000000) ||| (k'.toNat <<< 23) ||| (mant' &&& 0xFF7FFFFF)
      lib q &&& 0xFFFFFFFC

/-- `vfpu_cos` on bit patterns, with the platform
`(float)cos((double)x * M_PI_2)` abstracted as the oracle `lib`: NaN/inf →
always-positive payload NaN, small exponents → `1.0`, the same reduction
modulo 4 turns with a negate flag for the 2-turn subtraction, the exact
`±1.0` boundary special case returning a signed zero, and the final
negation/low-2-bit clearing. -/
def vfpu_cos (lib : Nat → Nat) (p : Nat) : Nat :=
  let k := get_uexp p
  if k = 255 then (p &&& 0x7F800001) ||| 1
  else if k < 0x65 then 0x3F800000
  else
    let mant0 := get_mant p
    let km : Nat × Nat :=
      if k > 0x80 then (0x80, (mant0 <<< (k &&& 0x1F)) &&& 0xFFFFFF)
      else (k, mant0)
    let negate : Bool := km.1 = 0x80 ∧ km.2 ≥ 0x800000
    let mant1 := if negate then km.2 - 0x800000 else km.2
    let normShift : Nat :=
      if mant1 = 0 then 32 else clz32_nonzero mant1 - 8
    let mant' := mant1 <<< normShift
    let k' : Int := (km.1 : Int) - normShift
    if k' ≤ 0 ∨ mant' = 0 then (if negate then 0xBF800000 else 0x3F800000)
    else
      let q := (p &&& 0x80000000) ||| (k'.toNat <<< 23) ||| (mant' &&& 0xFF7FFFFF)
      if q = 0x3F800000 ∨ q = 0xBF800000 then
        (if negate then 0 else 0x80000000)
      else
        let r := lib q &&& 0xFFFFFFFC
        if negate then r ^^^ 0x80000000 else r

end VFPU

namespace VFPU

theorem writePairs_notin : ∀ (ps : List (Nat × Nat)) (rf : Nat → Nat) (q : Nat), (∀ pv ∈ ps, pv.1 ≠ q) → writePairs ps rf q = rf q
  | [], _, _, _ => rfl
  | p :: rest, rf, q, h => by
    have h1 : p.1 ≠ q := h p (List.mem_cons_self _ _)
    have h2 : ∀ pv ∈ rest, pv.1 ≠ q := fun pv hm => h pv (List.mem_cons_of_mem _ hm)
    show writePairs rest _ q = rf q
    rw [writePairs_notin rest _ q h2]
    simp only [if_neg (Ne.symm h1)]

theorem writePairs_mem : ∀ (ps : List (Nat × Nat)) (rf : Nat → Nat) (t v : Nat), (ps.map Prod.fst).Nodup → (t, v) ∈ ps → writePairs ps rf t = v
  | [], _, _, _, _, hm => absurd hm (List.not_mem_nil _)
  | p :: rest, rf, t, v, hnd, hm => by
    rcases List.mem_cons.mp hm with heq | hmem
    · subst heq
      have hni : t ∉ rest.map Prod.fst := (List.nodup_cons.mp hnd).1
      have hnotin : ∀ pv ∈ rest, pv.1 ≠ t := by
        intro pv hpv he
        exact hni (he ▸ List.mem_map_of_mem Prod.fst hpv)
      show writePairs rest _ t = v
      rw [writePairs_notin rest _ t hnotin]
      simp
    · exact writePairs_mem rest _ t v (List.nodup_cons.mp hnd).2 hmem

theorem wpm_fst_map {α : Type} (cells : List α) (tgt val : α → Nat) :
    ((cells.map (fun c => (tgt c, val c))).map Prod.fst) = cells.map tgt := by
  simp [List.map_map, Function.comp]

theorem wpm_get {α : Type} (cells : List α) (tgt val : α → Nat) (rf : Nat → Nat) (c : α) (hc : c ∈ cells) (hnd : (cells.map tgt).Nodup) :
    writePairs (cells.map (fun c => (tgt c, val c))) rf (tgt c) = val c := by
  apply writePairs_mem
  · rw [wpm_fst_map]; exact hnd
  · exact List.mem_map_of_mem _ hc

theorem wpm_out {α : Type} (cells : List α) (tgt val : α → Nat) (rf : Nat → Nat) (q : Nat) (hq : ∀ c ∈ cells, tgt c ≠ q) :
    writePairs (cells.map (fun c => (tgt c, val c))) rf q = rf q := by
  apply writePairs_notin
  intro pv hpv
  rcases List.mem_map.mp hpv with ⟨c', hc', rfl⟩
  exact hq c' hc'

theorem wpf_get {α : Type} (cells : List α) (cond : α → Bool) (tgt val : α → Nat) (rf : Nat → Nat) (c : α) (hc : c ∈ cells) (hcond : cond c = true) (hnd : (cells.map tgt).Nodup) :
    writePairs ((cells.filter cond).map (fun c => (tgt c, val c))) rf (tgt c) = val c := by
  apply writePairs_mem
  · rw [wpm_fst_map]
    exact ((List.filter_sublist cells).map tgt).nodup hnd
  · exact List.mem_map_of_mem _ (List.mem_filter.mpr ⟨hc, hcond⟩)

theorem wpf_skip {α : Type} (cells : List α) (cond : α → Bool) (tgt val : α → Nat) (rf : Nat → Nat) (c : α) (hc : c ∈ cells) (hcond : cond c = false) (hnd : (cells.map tgt).Nodup) :
    writePairs ((cells.filter cond).map (fun c => (tgt c, val c))) rf (tgt c) = rf (tgt c) := by
  apply writePairs_notin
  intro pv hpv
  rcases List.mem_map.mp hpv with ⟨c', hc', rfl⟩
  have hc'm := (List.mem_filter.mp hc').1
  have hcond' := (List.mem_filter.mp hc').2
  intro he
  have hcc : c' = c := List.inj_on_of_nodup_map hnd hc'm hc he
  rw [hcc, hcond] at hcond'
  exact Bool.false_ne_true hcond'

theorem wpf_out {α : Type} (cells : List α) (cond : α → Bool) (tgt val : α → Nat) (rf : Nat → Nat) (q : Nat) (hq : ∀ c ∈ cells, tgt c ≠ q) :
    writePairs ((cells.filter cond).map (fun c => (tgt c, val c))) rf q = rf q := by
  apply writePairs_notin
  intro pv hpv
  rcases List.mem_map.mp hpv with ⟨c', hc', rfl⟩
  exact hq c' ((List.mem_filter.mp hc').1)

set_option maxRecDepth 100000

theorem voffset_inj : ∀ a b : Fin 128, voffset a.val = voffset b.val → a.val = b.val := by decide

theorem voffset_bank : ∀ a : Fin 128, voffset a.val / 16 = (a.val >>> 2) &&& 7 := by decide

theorem vecIdx_lt : ∀ (sz : VectorSize) (reg : Fin 128) (i : Fin 4), vecIdx sz reg.val i.val < 128 := by decide

theorem vecIdx_bank : ∀ (sz : VectorSize) (reg : Fin 128) (i : Fin 4), voffset (vecIdx sz reg.val i.val) / 16 = (reg.val >>> 2) &&& 7 := by decide

theorem vecIdx_single : ∀ reg : Fin 128, vecIdx .Single reg.val 0 = reg.val := by decide

theorem vecTargets_nodup : ∀ (sz : VectorSize) (reg : Fin 128), ((List.range (GetNumVectorElements sz)).map (fun i => voffset (vecIdx sz reg.val i))).Nodup := by decide

theorem mCellPhys_nodup : ∀ (sz : MatrixSize) (reg : Fin 128), ((mCells (GetMatrixSide sz)).map (fun c => mCellPhys sz reg.val c.2 c.1)).Nodup := by decide

theorem mFastT_nodup : ∀ (reg : Fin 128), ((mCells 4).map (fun c => ((((reg.val >>> 2) &&& 7) * 16) + ((c.2 * 4) + c.1)))).Nodup := by decide

theorem mFastU_nodup : ∀ (reg : Fin 128), ((List.range 16).map (fun k => ((((reg.val >>> 2) &&& 7) * 16) + k))).Nodup := by decide

theorem mCellPhys_bank : ∀ (sz : MatrixSize) (reg : Fin 128) (i j : Fin 4), mCellPhys sz reg.val i.val j.val / 16 = (reg.val >>> 2) &&& 7 := by decide

theorem numElems_le_four : ∀ sz : VectorSize, GetNumVectorElements sz ≤ 4 := by decide

theorem side_le_four : ∀ sz : MatrixSize, GetMatrixSide sz ≤ 4 := by decide

theorem land3_lt (i : Nat) (h : i < 4) : i &&& 3 = i := by interval_cases i <;> rfl

theorem mCells_mem (side : Nat) (c : Nat × Nat) (hc : c ∈ mCells side) : c.1 < side ∧ c.2 < side := by
  rcases List.mem_flatMap.mp hc with ⟨j, hj, hcm⟩
  rcases List.mem_map.mp hcm with ⟨i, hi, rfl⟩
  exact ⟨List.mem_range.mp hj, List.mem_range.mp hi⟩

theorem mCells_mem_iff (side : Nat) (j i : Nat) (hj : j < side) (hi : i < side) : (j, i) ∈ mCells side := by
  apply List.mem_flatMap.mpr
  exact ⟨j, List.mem_range.mpr hj, List.mem_map.mpr ⟨i, List.mem_range.mpr hi, rfl⟩⟩

end VFPU

namespace VFPU

set_option maxRecDepth 1000000

/-- C1: for every valid vector size and 7-bit register code, `GetVectorRegs`
returns for element `i` the lane index
`bank*4 + (transpose ? ((row+i)&3)+col*32 : col+((row+i)&3)*32)` with
`bank=(code>>2)&7`, `col=code&3`, `transpose=(code>>5)&1` (forced to 0 for
Single), and the size-dependent row field; in particular code 0 at Quad
size yields `{0,32,64,96}` and code 0x20 yields `{0,1,2,3}`. -/
theorem C1_vector_decode_formula :
    (∀ (sz : VectorSize) (code : Fin 128) (i : Fin (GetNumVectorElements sz)),
      (GetVectorRegs sz code.val).getD i.val 0xFF = specVectorIndex sz code.val i.val)
    ∧ GetVectorRegs .Quad 0 = [0, 32, 64, 96]
    ∧ GetVectorRegs .Quad 0x20 = [0, 1, 2, 3] := by decide

/-- C2: for every valid (size, code), `GetVectorRegs` produces exactly
`elementCount(size)` lane indices, pairwise distinct, each in `[0,128)`;
likewise `GetMatrixRegs` produces `side*side` pairwise-distinct lane
indices in `[0,128)`. -/
theorem C2_decode_count_distinct_range :
    (∀ (sz : VectorSize) (code : Fin 128),
      (GetVectorRegs sz code.val).length = GetNumVectorElements sz ∧
      (GetVectorRegs sz code.val).Nodup ∧
      ∀ x ∈ GetVectorRegs sz code.val, x < 128)
    ∧ (∀ (sz : MatrixSize) (code : Fin 128),
      (GetMatrixRegs sz code.val).length = GetMatrixSide sz * GetMatrixSide sz ∧
      (GetMatrixRegs sz code.val).Nodup ∧
      ∀ x ∈ GetMatrixRegs sz code.val, x < 128) := by decide

theorem C2_decode_count_distinct_range_witness :
    ((0 : Nat) ∈ GetVectorRegs .Quad (0 : Fin 128).val) ∧ (0 : Nat) < 128 :=
  ⟨by decide, (C2_decode_count_distinct_range.1 .Quad 0).2.2 0 (by decide)⟩

/-- C5 counterexample: the claim "toggling bit 5 transposes the decoded
index grid" fails at matrix size 2x2, code 1 (column field 1), cell (0,0):
the toggled code decodes lane 32 there while the original decodes lane 1,
so `GetMatrixRegs(code XOR 0x20)` at (0,0) differs from
`GetMatrixRegs(code)` at (0,0). -/
theorem C5_grid_transpose_counterexample :
    ¬ (mCellIdx .M_2x2 (1 ^^^ 0x20) 0 0 = mCellIdx .M_2x2 1 0 0) := by decide

/-- C5 amended: for matrix sizes 2x2, 3x3, 4x4 (for 1x1 bit 5 is part of
the row field, not a transpose bit), toggling bit 5 maps every decoded cell
index to its transposed lane position within the bank tile
(`bank*4 + c + 32*r ↦ bank*4 + r + 32*c`); the grid-level identity
`G'(i,j) = G(j,i)` of the original claim holds only when the code's row and
column fields coincide. -/
theorem C5_lane_transpose (sz : MatrixSize) (code : Fin 128) (i j : Fin 4)
    (hsz : sz ≠ .M_1x1) (hi : i.val < GetMatrixSide sz) (hj : j.val < GetMatrixSide sz) :
    mCellIdx sz (code.val ^^^ 0x20) i.val j.val =
      laneTranspose (mCellIdx sz code.val i.val j.val) := by
  revert sz code i j
  decide

theorem C5_lane_transpose_witness :
    ((MatrixSize.M_2x2 ≠ MatrixSize.M_1x1)
      ∧ (0 : Nat) < GetMatrixSide .M_2x2 ∧ (1 : Nat) < GetMatrixSide .M_2x2)
    ∧ mCellIdx .M_2x2 ((1 : Fin 128).val ^^^ 0x20) (0 : Fin 4).val (1 : Fin 4).val =
        laneTranspose (mCellIdx .M_2x2 (1 : Fin 128).val (0 : Fin 4).val (1 : Fin 4).val) :=
  ⟨by decide, C5_lane_transpose .M_2x2 1 0 1 (by decide) (by decide) (by decide)⟩

/-- C6: full self-overlap — `GetVectorOverlap(code, size, code, size)`
equals the element count of `size` — and overlap across differing bank
fields (bits 2-4) is 0 for all size arguments. -/
theorem C6_overlap_self_and_banks :
    (∀ (sz : VectorSize) (code : Fin 128),
      GetVectorOverlap code.val sz code.val sz = GetNumVectorElements sz)
    ∧ (∀ (c1 c2 : Nat) (s1 s2 : VectorSize),
      ((c1 >>> 2) &&& 7) ≠ ((c2 >>> 2) &&& 7) → GetVectorOverlap c1 s1 c2 s2 = 0) := by
  constructor
  · decide
  · intro c1 c2 s1 s2 h
    unfold GetVectorOverlap
    rw [if_pos h]

theorem C6_overlap_witness :
    (((0 : Nat) >>> 2) &&& 7) ≠ (((4 : Nat) >>> 2) &&& 7)
    ∧ GetVectorOverlap 0 .Quad 4 .Quad = 0 :=
  ⟨by decide, C6_overlap_self_and_banks.2 0 4 .Quad .Quad (by decide)⟩

end VFPU

namespace VFPU

set_option maxRecDepth 1000000

theorem voffset_ne_of_ne (a b : Nat) (ha : a < 128) (hb : b < 128) (h : a ≠ b) :
    voffset a ≠ voffset b :=
  fun he => h (voffset_inj ⟨a, ha⟩ ⟨b, hb⟩ he)

theorem writeVector0_at (sz : VectorSize) (reg : Fin 128) (rd rf : Nat → Nat) (i : Nat)
    (hi : i < GetNumVectorElements sz) :
    WriteVector rd sz reg.val 0 rf (voffset (vecIdx sz reg.val i)) = rd i := by
  cases sz with
  | Single =>
    have h0 : i = 0 := by
      have h1 : i < 1 := hi
      omega
    subst h0
    rw [vecIdx_single reg]
    simp [WriteVector, writePairs]
  | Pair =>
    simp only [WriteVector, if_pos rfl]
    exact wpm_get (List.range (GetNumVectorElements .Pair))
      (fun i => voffset (vecIdx .Pair reg.val i)) rd rf i
      (List.mem_range.mpr hi) (vecTargets_nodup .Pair reg)
  | Triple =>
    simp only [WriteVector, if_pos rfl]
    exact wpm_get (List.range (GetNumVectorElements .Triple))
      (fun i => voffset (vecIdx .Triple reg.val i)) rd rf i
      (List.mem_range.mpr hi) (vecTargets_nodup .Triple reg)
  | Quad =>
    simp only [WriteVector, if_pos rfl]
    exact wpm_get (List.range (GetNumVectorElements .Quad))
      (fun i => voffset (vecIdx .Quad reg.val i)) rd rf i
      (List.mem_range.mpr hi) (vecTargets_nodup .Quad reg)

theorem writeVector0_frame (sz : VectorSize) (reg : Fin 128) (rd rf : Nat → Nat)
    (l : Fin 128) (hl : l.val ∉ GetVectorRegs sz reg.val) :
    WriteVector rd sz reg.val 0 rf (voffset l.val) = rf (voffset l.val) := by
  have hne : ∀ i, i < GetNumVectorElements sz → vecIdx sz reg.val i ≠ l.val := by
    intro i hi he
    exact hl (he ▸ List.mem_map_of_mem _ (List.mem_range.mpr hi))
  have hout : ∀ i ∈ List.range (GetNumVectorElements sz), voffset (vecIdx sz reg.val i) ≠ voffset l.val := by
    intro i hi
    have hi' : i < GetNumVectorElements sz := List.mem_range.mp hi
    have hi4 : i < 4 := lt_of_lt_of_le hi' (numElems_le_four sz)
    exact voffset_ne_of_ne _ _ (vecIdx_lt sz reg ⟨i, hi4⟩) l.isLt (hne i hi')
  cases sz with
  | Single =>
    have hne0 : voffset l.val ≠ voffset reg.val := by
      have h0 : l.val ≠ reg.val := fun he => (hne 0 (by decide)) (by rw [vecIdx_single reg, he])
      exact voffset_ne_of_ne _ _ l.isLt reg.isLt h0
    simp [WriteVector, writePairs, hne0]
  | Pair =>
    simp only [WriteVector, if_pos rfl]
    exact wpm_out (List.range (GetNumVectorElements .Pair))
      (fun i => voffset (vecIdx .Pair reg.val i)) rd rf (voffset l.val) hout
  | Triple =>
    simp only [WriteVector, if_pos rfl]
    exact wpm_out (List.range (GetNumVectorElements .Triple))
      (fun i => voffset (vecIdx .Triple reg.val i)) rd rf (voffset l.val) hout
  | Quad =>
    simp only [WriteVector, if_pos rfl]
    exact wpm_out (List.range (GetNumVectorElements .Quad))
      (fun i => voffset (vecIdx .Quad reg.val i)) rd rf (voffset l.val) hout

/-- C3: for every valid (size, code), any source values, and any initial
register file, `WriteVector` with an all-clear mask followed by
`ReadVector` at the same (size, code) returns exactly the written values,
and every lane not addressed by that (size, code) keeps its previous
value. -/
theorem C3_write_read_roundtrip (sz : VectorSize) (reg : Fin 128) (rd rf : Nat → Nat) :
    ReadVector (WriteVector rd sz reg.val 0 rf) sz reg.val =
      (List.range (GetNumVectorElements sz)).map rd
    ∧ ∀ l : Fin 128, l.val ∉ GetVectorRegs sz reg.val →
        WriteVector rd sz reg.val 0 rf (voffset l.val) = rf (voffset l.val) := by
  constructor
  · cases sz with
    | Single =>
      have h0 := writeVector0_at .Single reg rd rf 0 (by decide)
      rw [vecIdx_single reg] at h0
      simp only [ReadVector, h0]
      rfl
    | Pair =>
      simp only [ReadVector]
      exact List.map_congr_left (fun i hi =>
        writeVector0_at .Pair reg rd rf i (List.mem_range.mp hi))
    | Triple =>
      simp only [ReadVector]
      exact List.map_congr_left (fun i hi =>
        writeVector0_at .Triple reg rd rf i (List.mem_range.mp hi))
    | Quad =>
      simp only [ReadVector]
      exact List.map_congr_left (fun i hi =>
        writeVector0_at .Quad reg rd rf i (List.mem_range.mp hi))
  · exact fun l hl => writeVector0_frame sz reg rd rf l hl

theorem C3_write_read_roundtrip_witness :
    ((5 : Nat) ∉ GetVectorRegs .Quad (0 : Fin 128).val)
    ∧ WriteVector (fun n => n + 1000) .Quad (0 : Fin 128).val 0 (fun n => n) (voffset 5) =
        (fun n : Nat => n) (voffset 5) :=
  ⟨by decide,
    (C3_write_read_roundtrip .Quad 0 (fun n => n + 1000) (fun n => n)).2 5 (by decide)⟩

end VFPU

namespace VFPU

set_option maxRecDepth 1000000

theorem mCellPhys_fastT (sz : MatrixSize) (reg i j : Nat) (hi : i < 4) (hj : j < 4)
    (ht : mtransp sz reg ≠ 0) (hr : mrow sz reg = 0) (hc : reg &&& 3 = 0) :
    mCellPhys sz reg i j = (((reg >>> 2) &&& 7) * 16) + ((i * 4) + j) := by
  simp only [mCellPhys, if_pos ht, hr, hc, Nat.zero_add, land3_lt i hi, land3_lt j hj]

theorem mCellPhys_fastU (sz : MatrixSize) (reg i j : Nat) (hi : i < 4) (hj : j < 4)
    (ht : ¬ (mtransp sz reg ≠ 0)) (hr : mrow sz reg = 0) (hc : reg &&& 3 = 0) :
    mCellPhys sz reg i j = (((reg >>> 2) &&& 7) * 16) + ((j * 4) + i) := by
  simp only [mCellPhys, if_neg ht, hr, hc, Nat.zero_add, land3_lt i hi, land3_lt j hj]

theorem mcond_true (side mask j i : Nat) (h : ¬(j = side - 1 ∧ (mask >>> i) &&& 1 ≠ 0)) :
    (decide (j ≠ side - 1) || ((mask >>> i) &&& 1 == 0)) = true := by
  by_cases hj : j = side - 1
  · have hb : (mask >>> i) &&& 1 = 0 := by
      by_contra hb
      exact h ⟨hj, hb⟩
    simp [hb]
  · simp [hj]

theorem mcond_false (side mask j i : Nat) (h1 : j = side - 1) (h2 : (mask >>> i) &&& 1 ≠ 0) :
    (decide (j ≠ side - 1) || ((mask >>> i) &&& 1 == 0)) = false := by
  rw [Nat.and_one_is_mod] at h2
  simp [h1, Nat.and_one_is_mod]
  omega

/-- C4: for every matrix size, code and write-mask state, `WriteMatrix`
leaves the cell at (row `i`, col `j`) with the written value exactly when
NOT (`j = side-1` and mask bit `i` is set), and with its previous value
when `j = side-1` and mask bit `i` is set: mask suppression applies only to
final-column cells, every other cell is written regardless of the mask. -/
theorem C4_matrix_mask_final_column (sz : MatrixSize) (reg : Fin 128) (mask : Nat)
    (rd rf : Nat → Nat) (i j : Nat) (hi : i < GetMatrixSide sz) (hj : j < GetMatrixSide sz) :
    (¬(j = GetMatrixSide sz - 1 ∧ (mask >>> i) &&& 1 ≠ 0) →
      WriteMatrix rd sz reg.val mask rf (mCellPhys sz reg.val i j) = rd ((j * 4) + i))
    ∧ ((j = GetMatrixSide sz - 1 ∧ (mask >>> i) &&& 1 ≠ 0) →
      WriteMatrix rd sz reg.val mask rf (mCellPhys sz reg.val i j) =
        rf (mCellPhys sz reg.val i j)) := by
  have hi4 : i < 4 := lt_of_lt_of_le hi (side_le_four sz)
  have hj4 : j < 4 := lt_of_lt_of_le hj (side_le_four sz)
  have hmem : (j, i) ∈ mCells (GetMatrixSide sz) := mCells_mem_iff _ j i hj hi
  constructor
  · intro hw
    have hcond := mcond_true (GetMatrixSide sz) mask j i hw
    simp only [WriteMatrix]
    by_cases ht : mtransp sz reg.val ≠ 0
    · rw [if_pos ht]
      by_cases hf : GetMatrixSide sz = 4 ∧ mrow sz reg.val = 0 ∧ reg.val &&& 3 = 0 ∧ mask = 0
      · rw [if_pos hf]
        rw [mCellPhys_fastT sz reg.val i j hi4 hj4 ht hf.2.1 hf.2.2.1]
        exact wpm_get (mCells 4)
          (fun c => ((((reg.val >>> 2) &&& 7) * 16) + ((c.2 * 4) + c.1)))
          (fun c => rd ((c.1 * 4) + c.2)) rf (j, i)
          (by rw [hf.1] at hmem; exact hmem) (mFastT_nodup reg)
      · rw [if_neg hf]
        exact wpf_get (mCells (GetMatrixSide sz))
          (fun c => decide (c.1 ≠ GetMatrixSide sz - 1) || ((mask >>> c.2) &&& 1 == 0))
          (fun c => mCellPhys sz reg.val c.2 c.1)
          (fun c => rd ((c.1 * 4) + c.2)) rf (j, i) hmem hcond (mCellPhys_nodup sz reg)
    · rw [if_neg ht]
      by_cases hf : GetMatrixSide sz = 4 ∧ mrow sz reg.val = 0 ∧ reg.val &&& 3 = 0 ∧ mask = 0
      · rw [if_pos hf]
        rw [mCellPhys_fastU sz reg.val i j hi4 hj4 ht hf.2.1 hf.2.2.1]
        have hk : (j * 4) + i ∈ List.range 16 := List.mem_range.mpr (by omega)
        exact wpm_get (List.range 16)
          (fun k => ((((reg.val >>> 2) &&& 7) * 16) + k)) rd rf ((j * 4) + i)
          hk (mFastU_nodup reg)
      · rw [if_neg hf]
        exact wpf_get (mCells (GetMatrixSide sz))
          (fun c => decide (c.1 ≠ GetMatrixSide sz - 1) || ((mask >>> c.2) &&& 1 == 0))
          (fun c => mCellPhys sz reg.val c.2 c.1)
          (fun c => rd ((c.1 * 4) + c.2)) rf (j, i) hmem hcond (mCellPhys_nodup sz reg)
  · intro hs
    have hcond := mcond_false (GetMatrixSide sz) mask j i hs.1 hs.2
    have hmz : mask ≠ 0 := by
      intro h0
      apply hs.2
      rw [h0]
      simp
    simp only [WriteMatrix]
    by_cases ht : mtransp sz reg.val ≠ 0
    · rw [if_pos ht]
      rw [if_neg (fun hf => hmz hf.2.2.2)]
      exact wpf_skip (mCells (GetMatrixSide sz))
        (fun c => decide (c.1 ≠ GetMatrixSide sz - 1) || ((mask >>> c.2) &&& 1 == 0))
        (fun c => mCellPhys sz reg.val c.2 c.1)
        (fun c => rd ((c.1 * 4) + c.2)) rf (j, i) hmem hcond (mCellPhys_nodup sz reg)
    · rw [if_neg ht]
      rw [if_neg (fun hf => hmz hf.2.2.2)]
      exact wpf_skip (mCells (GetMatrixSide sz))
        (fun c => decide (c.1 ≠ GetMatrixSide sz - 1) || ((mask >>> c.2) &&& 1 == 0))
        (fun c => mCellPhys sz reg.val c.2 c.1)
        (fun c => rd ((c.1 * 4) + c.2)) rf (j, i) hmem hcond (mCellPhys_nodup sz reg)

theorem C4_matrix_mask_final_column_witness :
    ((0 : Nat) < GetMatrixSide .M_2x2 ∧ (1 : Nat) < GetMatrixSide .M_2x2
      ∧ ((1 : Nat) = GetMatrixSide .M_2x2 - 1 ∧ ((1 : Nat) >>> 0) &&& 1 ≠ 0))
    ∧ WriteMatrix (fun n => n + 500) .M_2x2 (0 : Fin 128).val 1 (fun n => n + 9)
        (mCellPhys .M_2x2 (0 : Fin 128).val 0 1) =
      (fun n : Nat => n + 9) (mCellPhys .M_2x2 (0 : Fin 128).val 0 1) :=
  ⟨by decide,
    (C4_matrix_mask_final_column .M_2x2 0 1 (fun n => n + 500) (fun n => n + 9) 0 1
      (by decide) (by decide)).2 ⟨by decide, by decide⟩⟩

end VFPU

namespace VFPU

set_option maxRecDepth 1000000

theorem WriteVector_bank_frame (sz : VectorSize) (reg : Fin 128) (mask : Nat)
    (rd rf : Nat → Nat) (q : Nat) (hq : q / 16 ≠ (reg.val >>> 2) &&& 7) :
    WriteVector rd sz reg.val mask rf q = rf q := by
  have hout : ∀ i ∈ List.range (GetNumVectorElements sz),
      voffset (vecIdx sz reg.val i) ≠ q := by
    intro i hi he
    have hi4 : i < 4 := lt_of_lt_of_le (List.mem_range.mp hi) (numElems_le_four sz)
    apply hq
    rw [← he]
    exact (vecIdx_bank sz reg ⟨i, hi4⟩).symm ▸ rfl
  have houtf : ∀ i ∈ (List.range (GetNumVectorElements sz)).filter
      (fun i => (mask >>> i) &&& 1 == 0), voffset (vecIdx sz reg.val i) ≠ q :=
    fun i hi => hout i (List.mem_of_mem_filter hi)
  cases sz with
  | Single =>
    have hs : voffset reg.val ≠ q := by
      intro he
      apply hq
      rw [← he, voffset_bank reg]
    simp only [WriteVector]
    by_cases hm : (mask >>> 0) &&& 1 = 0
    · rw [if_pos hm]
      simp [writePairs, Ne.symm hs]
    · rw [if_neg hm]
  | Pair =>
    simp only [WriteVector]
    by_cases hm : mask = 0
    · rw [if_pos hm]
      exact wpm_out (List.range (GetNumVectorElements .Pair))
        (fun i => voffset (vecIdx .Pair reg.val i)) rd rf q hout
    · rw [if_neg hm]
      exact wpf_out (List.range (GetNumVectorElements .Pair))
        (fun i => (mask >>> i) &&& 1 == 0)
        (fun i => voffset (vecIdx .Pair reg.val i)) rd rf q hout
  | Triple =>
    simp only [WriteVector]
    by_cases hm : mask = 0
    · rw [if_pos hm]
      exact wpm_out (List.range (GetNumVectorElements .Triple))
        (fun i => voffset (vecIdx .Triple reg.val i)) rd rf q hout
    · rw [if_neg hm]
      exact wpf_out (List.range (GetNumVectorElements .Triple))
        (fun i => (mask >>> i) &&& 1 == 0)
        (fun i => voffset (vecIdx .Triple reg.val i)) rd rf q hout
  | Quad =>
    simp only [WriteVector]
    by_cases hm : mask = 0
    · rw [if_pos hm]
      exact wpm_out (List.range (GetNumVectorElements .Quad))
        (fun i => voffset (vecIdx .Quad reg.val i)) rd rf q hout
    · rw [if_neg hm]
      exact wpf_out (List.range (GetNumVectorElements .Quad))
        (fun i => (mask >>> i) &&& 1 == 0)
        (fun i => voffset (vecIdx .Quad reg.val i)) rd rf q hout

theorem WriteMatrix_bank_frame (sz : MatrixSize) (reg : Fin 128) (mask : Nat)
    (rd rf : Nat → Nat) (q : Nat) (hq : q / 16 ≠ (reg.val >>> 2) &&& 7) :
    WriteMatrix rd sz reg.val mask rf q = rf q := by
  have hcell : ∀ c ∈ mCells (GetMatrixSide sz), mCellPhys sz reg.val c.2 c.1 ≠ q := by
    intro c hc he
    have hb := mCells_mem (GetMatrixSide sz) c hc
    have h1 : c.1 < 4 := lt_of_lt_of_le hb.1 (side_le_four sz)
    have h2 : c.2 < 4 := lt_of_lt_of_le hb.2 (side_le_four sz)
    apply hq
    rw [← he]
    exact (mCellPhys_bank sz reg ⟨c.2, h2⟩ ⟨c.1, h1⟩).symm ▸ rfl
  have hblk : ∀ k, k < 16 → (((reg.val >>> 2) &&& 7) * 16) + k ≠ q := by
    intro k hk he
    apply hq
    omega
  simp only [WriteMatrix]
  by_cases ht : mtransp sz reg.val ≠ 0
  · rw [if_pos ht]
    by_cases hf : GetMatrixSide sz = 4 ∧ mrow sz reg.val = 0 ∧ reg.val &&& 3 = 0 ∧ mask = 0
    · rw [if_pos hf]
      apply wpm_out
      intro c hc
      have hb := mCells_mem 4 c hc
      exact hblk ((c.2 * 4) + c.1) (by omega)
    · rw [if_neg hf]
      exact wpf_out (mCells (GetMatrixSide sz))
        (fun c => decide (c.1 ≠ GetMatrixSide sz - 1) || ((mask >>> c.2) &&& 1 == 0))
        (fun c => mCellPhys sz reg.val c.2 c.1)
        (fun c => rd ((c.1 * 4) + c.2)) rf q hcell
  · rw [if_neg ht]
    by_cases hf : GetMatrixSide sz = 4 ∧ mrow sz reg.val = 0 ∧ reg.val &&& 3 = 0 ∧ mask = 0
    · rw [if_pos hf]
      apply wpm_out
      intro k hk
      exact hblk k (List.mem_range.mp hk)
    · rw [if_neg hf]
      exact wpf_out (mCells (GetMatrixSide sz))
        (fun c => decide (c.1 ≠ GetMatrixSide sz - 1) || ((mask >>> c.2) &&& 1 == 0))
        (fun c => mCellPhys sz reg.val c.2 c.1)
        (fun c => rd ((c.1 * 4) + c.2)) rf q hcell

/-- C10: for every size, code, write-mask state, source values and initial
register file, `WriteVector` and `WriteMatrix` modify only lanes of the
single bank selected by bits 2-4 of the code: every lane of the other
seven banks keeps its previous value. -/
theorem C10_writes_stay_in_bank (vsz : VectorSize) (msz : MatrixSize) (reg : Fin 128)
    (mask : Nat) (rd rf : Nat → Nat) (l : Fin 128)
    (hl : (l.val >>> 2) &&& 7 ≠ (reg.val >>> 2) &&& 7) :
    WriteVector rd vsz reg.val mask rf (voffset l.val) = rf (voffset l.val)
    ∧ WriteMatrix rd msz reg.val mask rf (voffset l.val) = rf (voffset l.val) := by
  have hq : voffset l.val / 16 ≠ (reg.val >>> 2) &&& 7 := by
    rw [voffset_bank l]
    exact hl
  exact ⟨WriteVector_bank_frame vsz reg mask rd rf (voffset l.val) hq,
    WriteMatrix_bank_frame msz reg mask rd rf (voffset l.val) hq⟩

theorem C10_writes_stay_in_bank_witness :
    (((16 : Nat) >>> 2) &&& 7 ≠ (((0 : Fin 128).val >>> 2) &&& 7))
    ∧ (WriteVector (fun n => n + 7) .Quad (0 : Fin 128).val 5 (fun n => n * 2) (voffset 16) =
        (fun n : Nat => n * 2) (voffset 16)
      ∧ WriteMatrix (fun n => n + 7) .M_3x3 (0 : Fin 128).val 5 (fun n => n * 2) (voffset 16) =
        (fun n : Nat => n * 2) (voffset 16)) :=
  ⟨by decide,
    C10_writes_stay_in_bank .Quad .M_3x3 0 5 (fun n => n + 7) (fun n => n * 2) 16 (by decide)⟩

end VFPU

namespace VFPU

set_option maxRecDepth 1000000

theorem dotLaneStep_none (a b : Nat) (h : infZeroPair a b) : dotLaneStep a b = none := by
  rcases h with ⟨⟨hae, _⟩, ⟨hbe, _⟩⟩ | ⟨⟨hae, _⟩, ⟨hbe, _⟩⟩
  · simp [dotLaneStep, hae, hbe]
  · simp [dotLaneStep, hae, hbe]

theorem dotScan_none (ps : List (Nat × Nat)) (me : Int) (li : Option Nat)
    (acc : List DotLane) (h : ∃ p ∈ ps, infZeroPair p.1 p.2) :
    dotScan ps me li acc = none := by
  induction ps generalizing me li acc with
  | nil =>
    rcases h with ⟨p, hp, _⟩
    exact absurd hp (List.not_mem_nil p)
  | cons hd tl ih =>
    obtain ⟨a, b⟩ := hd
    rcases h with ⟨p, hp, hiz⟩
    rcases List.mem_cons.mp hp with heq | hmem
    · have hiz' : infZeroPair a b := by rw [heq] at hiz; exact hiz
      simp [dotScan, dotLaneStep_none a b hiz']
    · rcases hstep : dotLaneStep a b with _ | L
      · simp [dotScan, hstep]
      · simp only [dotScan, hstep]
        by_cases h255 : L.e ≥ 255
        · simp only [if_pos h255]
          cases li with
          | some s =>
            by_cases hsgn : L.s ≠ s
            · simp [hsgn]
            · simp only [if_neg hsgn]
              exact ih _ _ _ ⟨p, hmem, hiz⟩
          | none => exact ih _ _ _ ⟨p, hmem, hiz⟩
        · simp only [if_neg h255]
          exact ih _ _ _ ⟨p, hmem, hiz⟩

/-- C7: the dot product of `{1,0,0,0}` with itself is exactly `1.0`
(bit pattern `0x3F800000`), and for every pair of operand vectors in which
some lane pairs an infinity with a zero — in either operand order — the
result is exactly the canonical NaN bit pattern `0x7F800001`. -/
theorem C7_dot_unit_and_inf_zero :
    vfpu_dot dotE0 dotE0 = 0x3F800000
    ∧ ∀ (a b : Fin 4 → Nat), (∃ i : Fin 4, infZeroPair (a i) (b i)) →
        vfpu_dot a b = 0x7F800001 := by
  constructor
  · decide
  · intro a b hex
    obtain ⟨i, hiz⟩ := hex
    have hmem : ∃ p ∈ [(a 0, b 0), (a 1, b 1), (a 2, b 2), (a 3, b 3)],
        infZeroPair p.1 p.2 := by
      fin_cases i
      · exact ⟨(a 0, b 0), by simp, hiz⟩
      · exact ⟨(a 1, b 1), by simp, hiz⟩
      · exact ⟨(a 2, b 2), by simp, hiz⟩
      · exact ⟨(a 3, b 3), by simp, hiz⟩
    unfold vfpu_dot
    rw [dotScan_none _ 0 none [] hmem]

theorem C7_dot_witness :
    (∃ i : Fin 4, infZeroPair (dotAllInf i) (dotAllZero i))
    ∧ vfpu_dot dotAllInf dotAllZero = 0x7F800001 :=
  ⟨⟨0, by decide⟩,
    C7_dot_unit_and_inf_zero.2 dotAllInf dotAllZero ⟨0, by decide⟩⟩

theorem sign_excludes_posInfNan (p : Nat) (h : p &&& 0x80000000 = 0x80000000) :
    p &&& 0xFF800000 ≠ 0x7F800000 := by
  intro he
  have h2 : (p &&& 0xFF800000) &&& 0x80000000 = 0x7F800000 &&& 0x80000000 := by rw [he]
  rw [Nat.land_assoc,
    (show (0xFF800000 : Nat) &&& 0x80000000 = 0x80000000 from by decide), h] at h2
  exact absurd h2 (by decide)

theorem exp0_excludes_posInfNan (p : Nat) (h : p &&& 0x7F800000 = 0) :
    p &&& 0xFF800000 ≠ 0x7F800000 := by
  intro he
  have h2 : (p &&& 0xFF800000) &&& 0x7F800000 = 0x7F800000 &&& 0x7F800000 := by rw [he]
  rw [Nat.land_assoc,
    (show (0xFF800000 : Nat) &&& 0x7F800000 = 0x7F800000 from by decide), h] at h2
  exact absurd h2 (by decide)

/-- C8 counterexample: `0x80000001` (the negative minimal subnormal, a
negative non-zero float) is flushed by `vfpu_sqrt` to `+0`, not to the
canonical NaN `0x7F800001` the claim requires for every negative non-zero
input: the `exp-field == 0` flush runs before the sign check. -/
theorem C8_sqrt_neg_subnormal_counterexample :
    ((0x80000001 : Nat) &&& 0x80000000 = 0x80000000)
    ∧ ((0x80000001 : Nat) &&& 0x7FFFFFFF ≠ 0)
    ∧ vfpu_sqrt 0x80000001 = 0
    ∧ vfpu_sqrt 0x80000001 ≠ 0x7F800001 := by decide

/-- C8 amended: `vfpu_sqrt(4.0) = 2.0` exactly; `vfpu_sqrt` of any negative
input with a nonzero exponent field — negative normals (in particular
`-1.0`), `-inf`, negative NaNs — returns the canonical NaN `0x7F800001`;
any input with a zero exponent field (`±0` and all subnormals of either
sign) returns `+0` with the sign bit cleared; and `vfpu_rsqrt(4.0) = 0.5`
exactly (pattern `0x3F000000`, already consistent with the documented
clearing of the low 2 mantissa bits). -/
theorem C8_sqrt_rsqrt_values :
    vfpu_sqrt 0x40800000 = 0x40000000
    ∧ (∀ p : Nat, p &&& 0x80000000 = 0x80000000 → p &&& 0x7F800000 ≠ 0 →
        vfpu_sqrt p = 0x7F800001)
    ∧ (∀ p : Nat, p &&& 0x7F800000 = 0 → vfpu_sqrt p = 0)
    ∧ vfpu_rsqrt 0x40800000 = 0x3F000000 := by
  refine ⟨by decide, ?_, ?_, by decide⟩
  · intro p hs he
    unfold vfpu_sqrt
    rw [if_neg (sign_excludes_posInfNan p hs), if_neg he,
      if_pos (show p &&& 0x80000000 ≠ 0 by rw [hs]; decide)]
  · intro p h0
    unfold vfpu_sqrt
    rw [if_neg (exp0_excludes_posInfNan p h0), if_pos h0]

theorem C8_sqrt_rsqrt_values_witness :
    ((0xBF800000 : Nat) &&& 0x80000000 = 0x80000000
      ∧ (0xBF800000 : Nat) &&& 0x7F800000 ≠ 0
      ∧ (0x80000000 : Nat) &&& 0x7F800000 = 0)
    ∧ vfpu_sqrt 0xBF800000 = 0x7F800001
    ∧ vfpu_sqrt 0x80000000 = 0 :=
  ⟨by decide,
    C8_sqrt_rsqrt_values.2.1 0xBF800000 (by decide) (by decide),
    C8_sqrt_rsqrt_values.2.2.1 0x80000000 (by decide)⟩

/-- C9: `vfpu_sin(0.0) = 0.0` and `vfpu_cos(0.0) = 1.0`; and
`vfpu_sin(2.0)` (2 turns = 180°) returns an exact zero via the boundary
special case — the bit pattern is `0x80000000`, i.e. `-0.0`, whose
magnitude bits are all zero and which compares equal to `0.0` — for every
platform sine/cosine implementation (`libs`, `libc`), i.e. without ever
consulting the library, so the result is not a library-approximate
near-zero value. -/
theorem C9_trig_zero_one_boundary (libs libc : Nat → Nat) :
    vfpu_sin libs 0 = 0
    ∧ vfpu_cos libc 0 = 0x3F800000
    ∧ vfpu_sin libs 0x40000000 = 0x80000000
    ∧ (0x80000000 : Nat) &&& 0x7FFFFFFF = 0 := by
  refine ⟨rfl, rfl, rfl, by decide⟩

end VFPU
